import Mathlib

/-!
Verification of the MyCookBook recipe-catalog server.

The development shallowly embeds the parts of the repository that the
spec's claims are about:

* the `Recipe` entity of `shared/schema.ts`;
* the in-memory storage backend `MemStorage` of `server/storage.ts`
  (recipe map, `getRecipes`, `getRecipeById`, `createRecipe`,
  `updateRecipe`, `deleteRecipe`, `searchRecipes`,
  `filterRecipesByTags`, `sortRecipes`);
* the Postgres storage backend `PostgresStorage` of
  `server/postgres-storage.ts`, modelled over an explicit list of table
  rows;
* the `GET /api/recipes` dispatcher of `server/routes.ts`
  (`registerRoutes`), with JavaScript's `parseInt(x) || default`
  parameter handling.

JavaScript `Map` iteration order is insertion order, `set` on an
existing key keeps the entry's position, and `Array.prototype.sort` is
stable; the embedding models the recipe map as a list in insertion
order keyed by the `id` field and JavaScript sorts as `List.mergeSort`.
Timestamps (`Date` values) are modelled as natural numbers (epoch
milliseconds); `localeCompare` is an ambient comparator parameter
`lc : String → String → Int`.
-/

namespace MyCookBook

/-- The `recipes` table row type of `shared/schema.ts` (`Recipe =
typeof recipes.$inferSelect`). `createdAt` is a timestamp in epoch
milliseconds. -/
structure Recipe where
  id : Nat
  name : String
  description : String
  ingredients : List String
  instructions : List String
  imageUrl : Option String
  prepTime : Int
  cookTime : Int
  servings : Int
  tags : List String
  authorId : Int
  rating : Int
  ratingCount : Int
  createdAt : Nat
deriving Repr, DecidableEq

/-- The `insertRecipeSchema` input shape: a recipe creation payload with
`id`, `createdAt`, `rating` and `ratingCount` omitted (stripped at the
schema boundary, server-controlled). -/
structure InsertRecipe where
  name : String
  description : String
  ingredients : List String
  instructions : List String
  imageUrl : Option String
  prepTime : Int
  cookTime : Int
  servings : Int
  tags : List String
  authorId : Int
deriving Repr, DecidableEq

/-- `Partial<InsertRecipe>`: every creation field optionally present. -/
structure PartialInsertRecipe where
  name : Option String := none
  description : Option String := none
  ingredients : Option (List String) := none
  instructions : Option (List String) := none
  imageUrl : Option (Option String) := none
  prepTime : Option Int := none
  cookTime : Option Int := none
  servings : Option Int := none
  tags : Option (List String) := none
  authorId : Option Int := none
deriving Repr, DecidableEq

/-- The empty partial update, JavaScript's `{}`. -/
def PartialInsertRecipe.empty : PartialInsertRecipe := {}

/-- Containment of `needle` as a contiguous run of `hay`, on character
lists. -/
def charSeqContains (needle : List Char) : List Char → Bool
  | [] => needle.isEmpty
  | c :: t => needle.isPrefixOf (c :: t) || charSeqContains needle t

/-- JavaScript `hay.includes(needle)`: substring containment. -/
def strIncludes (hay needle : String) : Bool :=
  charSeqContains needle.data hay.data

/-- JavaScript `String.prototype.toLowerCase` (ASCII range), mapped
over the character list. -/
def jsToLower (s : String) : String :=
  ⟨s.data.map Char.toLower⟩

/-- JavaScript `String.prototype.trim`: strip whitespace from both
ends. -/
def jsTrim (s : String) : String :=
  ⟨((s.data.dropWhile Char.isWhitespace).reverse.dropWhile
      Char.isWhitespace).reverse⟩

/-- JavaScript `s.split(',')`: split on commas; the empty string gives
`[""]`. -/
def splitCommaAux : List Char → List Char → List String
  | [], acc => [⟨acc.reverse⟩]
  | c :: t, acc =>
    if c = ',' then ⟨acc.reverse⟩ :: splitCommaAux t []
    else splitCommaAux t (c :: acc)

/-- JavaScript `s.split(',')` on a string. -/
def jsSplitComma (s : String) : List String :=
  splitCommaAux s.data []

/-- JavaScript `hay.toLowerCase().includes(needle.toLowerCase())`:
case-insensitive substring containment (ASCII lowering). -/
def containsCI (hay needle : String) : Bool :=
  strIncludes (jsToLower hay) (jsToLower needle)

/-- JavaScript `list.slice(offset, offset + limit)` for natural
arguments. -/
def jsSlice (l : List Recipe) (offset limit : Nat) : List Recipe :=
  (l.drop offset).take limit

/-- Lookup in the recipe map, JavaScript `this.recipes.get(id)` over the
insertion-ordered entry list. -/
def mapGet (m : List Recipe) (id : Nat) : Option Recipe :=
  m.find? (fun x => x.id == id)

/-- JavaScript `this.recipes.set(r.id, r)`: replace the entry in place
when the key is present, otherwise append (insertion order). -/
def mapSet (m : List Recipe) (r : Recipe) : List Recipe :=
  if m.any (fun x => x.id == r.id) then
    m.map (fun x => if x.id == r.id then r else x)
  else
    m ++ [r]

/-- JavaScript `this.recipes.delete(id)`: the returned flag tells
whether the key was present; the entry is removed. -/
def mapDelete (m : List Recipe) (id : Nat) : Bool × List Recipe :=
  (m.any (fun x => x.id == id), m.filter (fun x => x.id != id))

/-- The mutable state of `MemStorage` (`server/storage.ts`): the recipe
map as an insertion-ordered list and the `nextRecipeId` counter. -/
structure MemStorage where
  recipes : List Recipe
  nextRecipeId : Nat
deriving Repr, DecidableEq

/-- The `MemStorage` constructor state before `seedRecipes()` runs: an
empty map with `nextRecipeId = 1`. -/
def MemStorage.init : MemStorage := ⟨[], 1⟩

/-- Comparator of `getRecipes` and the `newest` branch of
`sortRecipes`: `(a, b) => b.createdAt - a.createdAt`, i.e. `a` sorts
weakly before `b` iff `b.createdAt ≤ a.createdAt`. -/
def leNewest (a b : Recipe) : Bool := decide (b.createdAt ≤ a.createdAt)

/-- Comparator of the `oldest` branch: `(a, b) => a.createdAt -
b.createdAt`. -/
def leOldest (a b : Recipe) : Bool := decide (a.createdAt ≤ b.createdAt)

/-- Comparator of the `az` branch: `(a, b) =>
a.name.localeCompare(b.name)`. -/
def leAz (lc : String → String → Int) (a b : Recipe) : Bool :=
  decide (lc a.name b.name ≤ 0)

/-- Comparator of the `za` branch: `(a, b) =>
b.name.localeCompare(a.name)`. -/
def leZa (lc : String → String → Int) (a b : Recipe) : Bool :=
  decide (lc b.name a.name ≤ 0)

/-- Comparator of the `popular` branch: `(a, b) => b.rating -
a.rating`. -/
def lePopular (a b : Recipe) : Bool := decide (b.rating ≤ a.rating)

/-- `MemStorage.getRecipes(limit, offset)`: sort all recipes newest
first (stable) and slice `[offset, offset + limit)`. -/
def MemStorage.getRecipes (s : MemStorage) (limit offset : Nat) : List Recipe :=
  jsSlice (s.recipes.mergeSort leNewest) offset limit

/-- `MemStorage.getRecipeById(id)`. -/
def MemStorage.getRecipeById (s : MemStorage) (id : Nat) : Option Recipe :=
  mapGet s.recipes id

/-- `MemStorage.createRecipe(insertRecipe)`: take the next id, stamp
`createdAt` with the current time, zero `rating`/`ratingCount`, store
and return the record. `now` stands for `new Date()`. -/
def MemStorage.createRecipe (s : MemStorage) (ins : InsertRecipe) (now : Nat) :
    Recipe × MemStorage :=
  let r : Recipe :=
    { id := s.nextRecipeId
      name := ins.name
      description := ins.description
      ingredients := ins.ingredients
      instructions := ins.instructions
      imageUrl := ins.imageUrl
      prepTime := ins.prepTime
      cookTime := ins.cookTime
      servings := ins.servings
      tags := ins.tags
      authorId := ins.authorId
      rating := 0
      ratingCount := 0
      createdAt := now }
  (r, { recipes := mapSet s.recipes r, nextRecipeId := s.nextRecipeId + 1 })

/-- The spread merge `{ ...existingRecipe, ...updates }` of
`MemStorage.updateRecipe`: fields present in the partial win, all
others (in particular `id`, `createdAt`, `rating`, `ratingCount`,
which `Partial<InsertRecipe>` cannot carry) are kept. -/
def mergeRecipe (r : Recipe) (u : PartialInsertRecipe) : Recipe :=
  { id := r.id
    name := u.name.getD r.name
    description := u.description.getD r.description
    ingredients := u.ingredients.getD r.ingredients
    instructions := u.instructions.getD r.instructions
    imageUrl := u.imageUrl.getD r.imageUrl
    prepTime := u.prepTime.getD r.prepTime
    cookTime := u.cookTime.getD r.cookTime
    servings := u.servings.getD r.servings
    tags := u.tags.getD r.tags
    authorId := u.authorId.getD r.authorId
    rating := r.rating
    ratingCount := r.ratingCount
    createdAt := r.createdAt }

/-- `MemStorage.updateRecipe(id, updates)`: `undefined` when the id is
unknown, otherwise store and return the shallow merge. -/
def MemStorage.updateRecipe (s : MemStorage) (id : Nat) (u : PartialInsertRecipe) :
    Option Recipe × MemStorage :=
  match mapGet s.recipes id with
  | none => (none, s)
  | some r =>
    let updated := mergeRecipe r u
    (some updated, { s with recipes := mapSet s.recipes updated })

/-- `MemStorage.deleteRecipe(id)`: `Map.delete` semantics. -/
def MemStorage.deleteRecipe (s : MemStorage) (id : Nat) : Bool × MemStorage :=
  let d := mapDelete s.recipes id
  (d.fst, { s with recipes := d.snd })

/-- The filter predicate of `MemStorage.searchRecipes`: case-insensitive
substring match of the query against name, description, any ingredient
or any tag. -/
def recipeMatches (q : String) (r : Recipe) : Bool :=
  containsCI r.name q || containsCI r.description q ||
    r.ingredients.any (fun i => containsCI i q) ||
    r.tags.any (fun t => containsCI t q)

/-- `MemStorage.searchRecipes(query, limit, offset)`: a falsy (empty)
query delegates to `getRecipes`; otherwise filter by `recipeMatches`
and slice. -/
def MemStorage.searchRecipes (s : MemStorage) (q : String) (limit offset : Nat) :
    List Recipe :=
  if q = "" then s.getRecipes limit offset
  else jsSlice (s.recipes.filter (recipeMatches q)) offset limit

/-- `MemStorage.filterRecipesByTags(tags, limit, offset)`: an empty tag
list delegates to `getRecipes`; otherwise keep the recipes whose tag
list contains every requested tag (`tags.every(tag =>
recipe.tags.includes(tag))`) and slice. -/
def MemStorage.filterRecipesByTags (s : MemStorage) (tags : List String)
    (limit offset : Nat) : List Recipe :=
  if tags.isEmpty then s.getRecipes limit offset
  else
    jsSlice (s.recipes.filter (fun r => tags.all (fun t => r.tags.contains t)))
      offset limit

/-- The comparator chosen by the `switch (criteria)` of
`MemStorage.sortRecipes`; `none` for an unrecognised criterion (the
switch falls through and no sort is applied). `lc` stands for
JavaScript's `String.prototype.localeCompare`. -/
def criterionLe (lc : String → String → Int) : String → Option (Recipe → Recipe → Bool)
  | "newest" => some leNewest
  | "oldest" => some leOldest
  | "az" => some (leAz lc)
  | "za" => some (leZa lc)
  | "popular" => some lePopular
  | _ => none

/-- `MemStorage.sortRecipes(criteria, limit, offset)`: stable-sort all
recipes by the criterion's comparator (or leave them in insertion
order for an unknown criterion) and slice. -/
def MemStorage.sortRecipes (s : MemStorage) (lc : String → String → Int)
    (criteria : String) (limit offset : Nat) : List Recipe :=
  let sorted :=
    match criterionLe lc criteria with
    | some le => s.recipes.mergeSort le
    | none => s.recipes
  jsSlice sorted offset limit

namespace PostgresStorage

/-- Filter predicate generated by `searchRecipes` of
`server/postgres-storage.ts`: `ilike(name, '%q%') OR ilike(description,
'%q%')` — case-insensitive substring match against name and description
only (for queries without SQL wildcard characters). -/
def pgSearchMatches (q : String) (r : Recipe) : Bool :=
  containsCI r.name q || containsCI r.description q

/-- `PostgresStorage.searchRecipes(query, limit, offset)` over a table
given as its row list: `findMany` with the `ilike` disjunction, limit
and offset. There is no empty-query special case. -/
def searchRecipes (rows : List Recipe) (q : String) (limit offset : Nat) :
    List Recipe :=
  jsSlice (rows.filter (pgSearchMatches q)) offset limit

/-- `PostgresStorage.filterRecipesByTags(tags, limit, offset)`:
`arrayContains(recipes.tags, tags)` keeps the rows whose tag array
contains every requested tag. -/
def filterRecipesByTags (rows : List Recipe) (tags : List String)
    (limit offset : Nat) : List Recipe :=
  jsSlice (rows.filter (fun r => tags.all (fun t => r.tags.contains t)))
    offset limit

/-- `PostgresStorage.sortRecipes(criteria, limit, offset)`: the
criterion is ignored, `findMany` just applies limit and offset. -/
def sortRecipes (rows : List Recipe) (criteria : String) (limit offset : Nat) :
    List Recipe :=
  let _ := criteria
  jsSlice rows offset limit

/-- `PostgresStorage.getRecipeById(id)`. -/
def getRecipeById (rows : List Recipe) (id : Nat) : Option Recipe :=
  rows.find? (fun r => r.id == id)

/-- `PostgresStorage.deleteRecipe(id)`: deletes the matching rows and
returns `true` unconditionally (the row count is not checked). -/
def deleteRecipe (rows : List Recipe) (id : Nat) : Bool × List Recipe :=
  (true, rows.filter (fun r => r.id != id))

end PostgresStorage

/-- JavaScript `parseInt(s)` (radix 10; the automatic `0x` radix
detection is not modelled): skip leading whitespace, read an optional
sign and then a maximal run of decimal digits; `none` models `NaN`
(no digits). -/
def parseIntJS (s : String) : Option Int :=
  let cs := (jsTrim s).data
  let signed : Int × List Char :=
    match cs with
    | '-' :: t => (-1, t)
    | '+' :: t => (1, t)
    | t => (1, t)
  let digits := signed.snd.takeWhile Char.isDigit
  if digits.isEmpty then none
  else some (signed.fst * (digits.foldl (fun n c => n * 10 + (c.toNat - 48)) 0 : Nat))

/-- The route layer's `parseInt(req.query.x as string) || d` idiom:
a missing parameter, a `NaN` parse and a zero parse all fall back to
the default. -/
def parseIntOr (q : Option String) (d : Int) : Int :=
  match q with
  | none => d
  | some s =>
    match parseIntJS s with
    | none => d
    | some v => if v = 0 then d else v

/-- The query parameters of `GET /api/recipes`; `none` models an absent
parameter. -/
structure RecipeQuery where
  limit : Option String := none
  offset : Option String := none
  search : Option String := none
  tags : Option String := none
  sort : Option String := none

/-- Which storage operation the `GET /api/recipes` handler dispatches
to. -/
inductive Dispatch where
  | searchMode (q : String)
  | tagsMode (ts : List String)
  | sortMode (c : String)
deriving Repr, DecidableEq

/-- The `GET /api/recipes` handler of `registerRoutes`
(`server/routes.ts`): parse `limit`/`offset` with defaults 6 and 0,
split `tags` on commas (an absent or empty parameter gives `[]`),
default `sort` to `newest`, then pick exactly one storage call —
search when the search parameter is present and non-blank, else tag
filter when the tag list is non-empty, else sort. Returns the chosen
dispatch with the parsed limit and offset. -/
def routeRecipes (q : RecipeQuery) : Dispatch × Int × Int :=
  let limit := parseIntOr q.limit 6
  let offset := parseIntOr q.offset 0
  let tags : List String :=
    match q.tags with
    | some t => if t = "" then [] else jsSplitComma t
    | none => []
  let sort : String :=
    match q.sort with
    | some c => if c = "" then "newest" else c
    | none => "newest"
  let searchActive : Bool :=
    match q.search with
    | some s => s ≠ "" && jsTrim s ≠ ""
    | none => false
  let d : Dispatch :=
    if searchActive then Dispatch.searchMode (q.search.getD "")
    else if tags ≠ [] then Dispatch.tagsMode tags
    else Dispatch.sortMode sort
  (d, limit, offset)

/-! ### General lemmas about the slicing and map primitives -/

theorem jsSlice_pages (L : List Recipe) :
    jsSlice L 0 6 ++ jsSlice L 6 6 ++ jsSlice L 12 6 = jsSlice L 0 18 := by
  simp only [jsSlice, List.drop_zero]
  rw [show (18 : Nat) = 6 + 12 from rfl, List.take_add,
    show (12 : Nat) = 6 + 6 from rfl, List.take_add, List.drop_drop,
    List.append_assoc]

theorem jsSlice_zero_of_le (L : List Recipe) (n : Nat) (h : L.length ≤ n) :
    jsSlice L 0 n = L := by
  simp [jsSlice, List.take_of_length_le h]

theorem find?_map_replace (r : Recipe) :
    ∀ m : List Recipe, m.any (fun x => x.id == r.id) = true →
      List.find? (fun x => x.id == r.id)
        (m.map (fun x => if (x.id == r.id) = true then r else x)) = some r
  | [], h => by simp at h
  | x :: t, h => by
    rw [List.map_cons]
    by_cases hx : (x.id == r.id) = true
    · rw [if_pos hx, List.find?_cons_of_pos _ (by simp)]
    · rw [if_neg hx, List.find?_cons_of_neg (p := fun y : Recipe => y.id == r.id) _ hx]
      apply find?_map_replace r t
      simpa [hx] using h

theorem mapGet_mapSet_self (m : List Recipe) (r : Recipe) :
    mapGet (mapSet m r) r.id = some r := by
  unfold mapGet mapSet
  split
  · rename_i h
    exact find?_map_replace r m h
  · rename_i h
    rw [List.find?_append]
    have hnone : m.find? (fun x => x.id == r.id) = none := by
      rw [List.find?_eq_none]
      intro x hx hbeq
      exact h (List.any_eq_true.mpr ⟨x, hx, hbeq⟩)
    simp [hnone]

theorem mem_of_mem_jsSlice {r : Recipe} {L : List Recipe} {o l : Nat}
    (h : r ∈ jsSlice L o l) : r ∈ L :=
  (List.drop_sublist o L).subset ((List.take_sublist l (L.drop o)).subset h)

theorem jsSlice_filter_full (L : List Recipe) (p : Recipe → Bool) :
    jsSlice (L.filter p) 0 L.length = L.filter p :=
  jsSlice_zero_of_le _ _ (List.length_filter_le p L)

theorem find?_filter_ne_id (m : List Recipe) (id : Nat) :
    (m.filter (fun x => x.id != id)).find? (fun x => x.id == id) = none := by
  rw [List.find?_eq_none]
  intro x hx
  have := (List.mem_filter.mp hx).2
  simp_all

theorem splitCommaAux_ne_nil (cs : List Char) :
    ∀ acc : List Char, splitCommaAux cs acc ≠ [] := by
  induction cs with
  | nil => intro acc; simp [splitCommaAux]
  | cons c t ih =>
    intro acc
    by_cases hc : c = ',' <;> simp only [splitCommaAux, hc, ite_true, ite_false] <;>
      first
        | exact List.cons_ne_nil _ _
        | exact ih _

/-- The id invariant of the in-memory store: every stored id is below
the `nextRecipeId` counter, and stored ids are pairwise distinct. -/
def MemStorage.IdInv (s : MemStorage) : Prop :=
  (∀ r ∈ s.recipes, r.id < s.nextRecipeId) ∧
    s.recipes.Pairwise (fun a b => a.id ≠ b.id)

instance (s : MemStorage) : Decidable s.IdInv := by
  unfold MemStorage.IdInv
  infer_instance

/-! ### Spec-side search predicate (stated from the spec's words) -/

/-- The spec's search contract, stated from its words: "case-insensitive
substring match against name, description, any ingredient, or any
tag". To be compared with the code's filter predicate
`recipeMatches`. -/
def specSearchMatch (r : Recipe) (q : String) : Prop :=
  containsCI r.name q = true ∨ containsCI r.description q = true ∨
    (∃ i ∈ r.ingredients, containsCI i q = true) ∨
    (∃ t ∈ r.tags, containsCI t q = true)

instance (r : Recipe) (q : String) : Decidable (specSearchMatch r q) := by
  unfold specSearchMatch
  infer_instance

theorem recipeMatches_iff (r : Recipe) (q : String) :
    recipeMatches q r = true ↔ specSearchMatch r q := by
  simp [recipeMatches, specSearchMatch, List.any_eq_true, or_assoc]

/-! ### Concrete test data -/

/-- A concrete recipe whose only tag is Vegan and whose ingredient list
mentions tofu (the name and description do not). -/
def sampleRecipe : Recipe :=
  { id := 1, name := "Sunday Bowl", description := "Great dinner",
    ingredients := ["tofu", "rice"], instructions := ["cook"],
    imageUrl := none, prepTime := 5, cookTime := 10, servings := 2,
    tags := ["Vegan"], authorId := 1, rating := 0, ratingCount := 0,
    createdAt := 100 }

/-- A one-recipe in-memory store, next id 2. -/
def sampleStore : MemStorage := ⟨[sampleRecipe], 2⟩

/-- A concrete creation input. -/
def sampleInsert : InsertRecipe :=
  { name := "Toast", description := "Quick toast",
    ingredients := ["bread"], instructions := ["toast it"],
    imageUrl := none, prepTime := 1, cookTime := 2, servings := 1,
    tags := ["Breakfast"], authorId := 1 }

/-- The all-zero locale comparator, a degenerate but consistent
`localeCompare` used to instantiate comparator hypotheses. -/
def constZeroCmp : String → String → Int := fun _ _ => 0

/-! ### Claim theorems -/

/-- C5: for a fixed store and a fixed selection mode (same search
query, tag list, or sort criterion), concatenating the three pages
`(limit 6, offset 0)`, `(limit 6, offset 6)` and `(limit 6, offset 12)`
equals the single call with `limit 18, offset 0`, for every storage
selection operation. -/
theorem C5_pagination_pages_concat (s : MemStorage) (lc : String → String → Int)
    (q : String) (ts : List String) (c : String) :
    s.getRecipes 6 0 ++ s.getRecipes 6 6 ++ s.getRecipes 6 12 = s.getRecipes 18 0 ∧
    s.searchRecipes q 6 0 ++ s.searchRecipes q 6 6 ++ s.searchRecipes q 6 12
      = s.searchRecipes q 18 0 ∧
    s.filterRecipesByTags ts 6 0 ++ s.filterRecipesByTags ts 6 6
        ++ s.filterRecipesByTags ts 6 12
      = s.filterRecipesByTags ts 18 0 ∧
    s.sortRecipes lc c 6 0 ++ s.sortRecipes lc c 6 6 ++ s.sortRecipes lc c 6 12
      = s.sortRecipes lc c 18 0 := by
  refine ⟨jsSlice_pages _, ?_, ?_, ?_⟩
  · by_cases hq : q = "" <;>
      simp only [MemStorage.searchRecipes, if_pos, if_neg, hq, ite_true, ite_false] <;>
      exact jsSlice_pages _
  · by_cases ht : ts.isEmpty <;>
      simp only [MemStorage.filterRecipesByTags, ht, ite_true, ite_false] <;>
      exact jsSlice_pages _
  · unfold MemStorage.sortRecipes
    cases criterionLe lc c <;> exact jsSlice_pages _

/-- C6: `createRecipe` followed by `getRecipeById` on the returned id
yields exactly the returned record, whose `id` is the server-assigned
`nextRecipeId`, whose `createdAt` is the server's current time, whose
`rating` and `ratingCount` are zero, and whose remaining fields equal
the creation input (which by the `InsertRecipe` shape cannot carry
`id`, `createdAt`, `rating` or `ratingCount`). -/
theorem C6_create_then_get (s : MemStorage) (ins : InsertRecipe) (now : Nat) :
    (s.createRecipe ins now).snd.getRecipeById (s.createRecipe ins now).fst.id
        = some (s.createRecipe ins now).fst ∧
    (s.createRecipe ins now).fst.id = s.nextRecipeId ∧
    (s.createRecipe ins now).fst.createdAt = now ∧
    (s.createRecipe ins now).fst.rating = 0 ∧
    (s.createRecipe ins now).fst.ratingCount = 0 ∧
    (s.createRecipe ins now).fst.name = ins.name ∧
    (s.createRecipe ins now).fst.description = ins.description ∧
    (s.createRecipe ins now).fst.ingredients = ins.ingredients ∧
    (s.createRecipe ins now).fst.instructions = ins.instructions ∧
    (s.createRecipe ins now).fst.imageUrl = ins.imageUrl ∧
    (s.createRecipe ins now).fst.prepTime = ins.prepTime ∧
    (s.createRecipe ins now).fst.cookTime = ins.cookTime ∧
    (s.createRecipe ins now).fst.servings = ins.servings ∧
    (s.createRecipe ins now).fst.tags = ins.tags ∧
    (s.createRecipe ins now).fst.authorId = ins.authorId := by
  refine ⟨?_, rfl, rfl, rfl, rfl, rfl, rfl, rfl, rfl, rfl, rfl, rfl, rfl, rfl, rfl⟩
  exact mapGet_mapSet_self s.recipes _

/-- Counterexample to C1: on the same one-recipe data set, the query
"tofu" matches only through an ingredient, so the in-memory backend
returns the recipe while the Postgres backend (which matches name and
description only) returns nothing — the two storage implementations do
not satisfy the search contract identically. -/
theorem C1_counterexample :
    MemStorage.searchRecipes sampleStore "tofu" 6 0 = [sampleRecipe] ∧
    sampleStore.recipes = [sampleRecipe] ∧
    PostgresStorage.searchRecipes [sampleRecipe] "tofu" 6 0 = [] := by
  refine ⟨by decide, rfl, by decide⟩

/-- C1 (amended): the in-memory `searchRecipes` returns exactly the
recipes matching the query by case-insensitive substring against name,
description, any ingredient or any tag, sliced by
`[offset, offset + limit)`, and the empty query is equivalent to
`getRecipes`; the Postgres implementation instead filters by name and
description only (with no empty-query special case). -/
theorem C1_amended_search (s : MemStorage) (rows : List Recipe) (q : String)
    (limit offset : Nat) (h : q ≠ "") :
    s.searchRecipes q limit offset
        = jsSlice (s.recipes.filter (fun r => decide (specSearchMatch r q)))
            offset limit ∧
    (∀ r ∈ s.searchRecipes q limit offset, specSearchMatch r q) ∧
    (∀ r ∈ s.recipes, specSearchMatch r q →
      r ∈ s.searchRecipes q s.recipes.length 0) ∧
    s.searchRecipes "" limit offset = s.getRecipes limit offset ∧
    PostgresStorage.searchRecipes rows q limit offset
        = jsSlice (rows.filter (PostgresStorage.pgSearchMatches q)) offset limit := by
  have hfilter : s.recipes.filter (recipeMatches q)
      = s.recipes.filter (fun r => decide (specSearchMatch r q)) := by
    apply List.filter_congr
    intro r _
    rw [Bool.eq_iff_iff, recipeMatches_iff, decide_eq_true_eq]
  refine ⟨?_, ?_, ?_, ?_, rfl⟩
  · simp only [MemStorage.searchRecipes, if_neg h, hfilter]
  · intro r hr
    rw [MemStorage.searchRecipes, if_neg h] at hr
    have := mem_of_mem_jsSlice hr
    exact (recipeMatches_iff r q).mp (List.mem_filter.mp this).2
  · intro r hr hm
    rw [MemStorage.searchRecipes, if_neg h, jsSlice_filter_full]
    exact List.mem_filter.mpr ⟨hr, (recipeMatches_iff r q).mpr hm⟩
  · simp [MemStorage.searchRecipes]

/-- Witness for C1's amended theorem at the concrete store and the
query "tofu". -/
theorem C1_amended_search_witness :
    MemStorage.searchRecipes sampleStore "tofu" 6 0
      = jsSlice
          (sampleStore.recipes.filter (fun r => decide (specSearchMatch r "tofu")))
          0 6 :=
  (C1_amended_search sampleStore [] "tofu" 6 0 (by decide)).1

/-- C2: with a non-empty tag list, `filterRecipesByTags` is sound (every
returned recipe carries every requested tag) and complete (every
stored recipe carrying all requested tags is in the unsliced match
set), in both the in-memory and the Postgres implementations. -/
theorem C2_filter_by_tags_superset (s : MemStorage) (rows : List Recipe)
    (ts : List String) (limit offset : Nat) (hne : ts ≠ []) :
    (∀ r ∈ s.filterRecipesByTags ts limit offset, ∀ t ∈ ts, t ∈ r.tags) ∧
    (∀ r ∈ s.recipes, (∀ t ∈ ts, t ∈ r.tags) →
      r ∈ s.filterRecipesByTags ts s.recipes.length 0) ∧
    (∀ r ∈ PostgresStorage.filterRecipesByTags rows ts limit offset,
      ∀ t ∈ ts, t ∈ r.tags) ∧
    (∀ r ∈ rows, (∀ t ∈ ts, t ∈ r.tags) →
      r ∈ PostgresStorage.filterRecipesByTags rows ts rows.length 0) := by
  have hemp : ts.isEmpty = false := by
    cases ts with
    | nil => exact absurd rfl hne
    | cons a l => rfl
  refine ⟨?_, ?_, ?_, ?_⟩
  · intro r hr
    rw [MemStorage.filterRecipesByTags, hemp] at hr
    simp only [Bool.false_eq_true, if_false] at hr
    have := (List.mem_filter.mp (mem_of_mem_jsSlice hr)).2
    simpa using this
  · intro r hr hm
    rw [MemStorage.filterRecipesByTags, hemp]
    simp only [Bool.false_eq_true, if_false]
    rw [jsSlice_filter_full]
    refine List.mem_filter.mpr ⟨hr, by simpa using hm⟩
  · intro r hr
    have := (List.mem_filter.mp (mem_of_mem_jsSlice hr)).2
    simpa using this
  · intro r hr hm
    rw [PostgresStorage.filterRecipesByTags, jsSlice_filter_full]
    refine List.mem_filter.mpr ⟨hr, by simpa using hm⟩

/-- Witness for C2 at the concrete store: the Vegan-tagged recipe is in
the unsliced match set for the tag list `["Vegan"]`. -/
theorem C2_filter_by_tags_superset_witness :
    sampleRecipe ∈ sampleStore.filterRecipesByTags ["Vegan"]
      sampleStore.recipes.length 0 :=
  (C2_filter_by_tags_superset sampleStore [] ["Vegan"] 6 0 (by decide)).2.1
    sampleRecipe (by decide) (by decide)

/-- C7: on a known id, `updateRecipe` stores and returns the shallow
merge of the partial update into the existing record: supplied fields
win, `id` and `createdAt` (and `rating`/`ratingCount`, which a
`Partial<InsertRecipe>` cannot carry) are never changed; the empty
partial update returns the pre-update record unchanged; on an unknown
id it returns "not found" and leaves the store untouched. -/
theorem C7_update_shallow_merge (s : MemStorage) (id : Nat)
    (u : PartialInsertRecipe) (r0 : Recipe)
    (h : s.getRecipeById id = some r0) :
    (s.updateRecipe id u).fst = some (mergeRecipe r0 u) ∧
    (mergeRecipe r0 u).id = r0.id ∧
    (mergeRecipe r0 u).createdAt = r0.createdAt ∧
    (mergeRecipe r0 u).rating = r0.rating ∧
    (mergeRecipe r0 u).ratingCount = r0.ratingCount ∧
    (mergeRecipe r0 u).name = u.name.getD r0.name ∧
    (mergeRecipe r0 u).description = u.description.getD r0.description ∧
    (mergeRecipe r0 u).ingredients = u.ingredients.getD r0.ingredients ∧
    (mergeRecipe r0 u).instructions = u.instructions.getD r0.instructions ∧
    (mergeRecipe r0 u).imageUrl = u.imageUrl.getD r0.imageUrl ∧
    (mergeRecipe r0 u).prepTime = u.prepTime.getD r0.prepTime ∧
    (mergeRecipe r0 u).cookTime = u.cookTime.getD r0.cookTime ∧
    (mergeRecipe r0 u).servings = u.servings.getD r0.servings ∧
    (mergeRecipe r0 u).tags = u.tags.getD r0.tags ∧
    (mergeRecipe r0 u).authorId = u.authorId.getD r0.authorId ∧
    (s.updateRecipe id PartialInsertRecipe.empty).fst = some r0 ∧
    (∀ j, s.getRecipeById j = none →
      (s.updateRecipe j u).fst = none ∧ (s.updateRecipe j u).snd = s) := by
  have hmerge : mergeRecipe r0 PartialInsertRecipe.empty = r0 := rfl
  refine ⟨?_, rfl, rfl, rfl, rfl, rfl, rfl, rfl, rfl, rfl, rfl, rfl, rfl, rfl, rfl,
    ?_, ?_⟩
  · rw [MemStorage.updateRecipe]
    rw [show mapGet s.recipes id = some r0 from h]
  · rw [MemStorage.updateRecipe]
    rw [show mapGet s.recipes id = some r0 from h]
    exact congrArg some hmerge
  · intro j hj
    rw [MemStorage.updateRecipe, show mapGet s.recipes j = none from hj]
    exact ⟨rfl, rfl⟩

/-- Witness for C7 at the concrete store: the empty update on id 1
returns the stored record merged with nothing. -/
theorem C7_update_shallow_merge_witness :
    (sampleStore.updateRecipe 1 PartialInsertRecipe.empty).fst
      = some (mergeRecipe sampleRecipe PartialInsertRecipe.empty) :=
  (C7_update_shallow_merge sampleStore 1 PartialInsertRecipe.empty sampleRecipe
    (by decide)).1

/-- Counterexample to C8: on an empty Postgres table no record with id 1
exists, yet `deleteRecipe` returns `true` (the implementation returns
`true` unconditionally instead of checking the affected row count), so
the claim's "returns true exactly when a record existed" fails for the
Postgres backend. -/
theorem C8_counterexample :
    PostgresStorage.getRecipeById [] 1 = none ∧
    (PostgresStorage.deleteRecipe [] 1).fst = true := by
  exact ⟨rfl, rfl⟩

/-- C8 (amended): in the in-memory backend `deleteRecipe` returns true
exactly when a record with the id existed, the record is removed
(subsequent `getRecipeById` yields "not found"), and deleting an
already-deleted id returns false rather than raising; the Postgres
backend also removes the record, but returns true unconditionally,
even when nothing existed. -/
theorem C8_amended_delete (s : MemStorage) (id : Nat) (rows : List Recipe) :
    ((s.deleteRecipe id).fst = true ↔ ∃ r ∈ s.recipes, r.id = id) ∧
    (s.deleteRecipe id).snd.getRecipeById id = none ∧
    ((s.deleteRecipe id).snd.deleteRecipe id).fst = false ∧
    (PostgresStorage.deleteRecipe rows id).fst = true ∧
    PostgresStorage.getRecipeById (PostgresStorage.deleteRecipe rows id).snd id
      = none := by
  refine ⟨?_, ?_, ?_, rfl, ?_⟩
  · simp [MemStorage.deleteRecipe, mapDelete, List.any_eq_true]
  · exact find?_filter_ne_id s.recipes id
  · simp only [MemStorage.deleteRecipe, mapDelete]
    rw [List.any_eq_false]
    intro x hx
    have := (List.mem_filter.mp hx).2
    simp_all
  · exact find?_filter_ne_id rows id

/-- C10: a missing, non-numeric or zero `limit` parameter becomes 6 and
a missing or non-numeric `offset` becomes 0 (the `parseInt(...) || d`
fallback); in particular a request with `limit=0` is dispatched with
limit 6, so the default sort path returns at most 6 recipes and a
non-empty page whenever the store is non-empty — a client can never
request an empty page via `limit=0`. -/
theorem C10_parse_fallbacks (st s0 : String) (h : parseIntJS st = none)
    (h0 : parseIntJS s0 = some 0) :
    parseIntOr none 6 = 6 ∧ parseIntOr (some st) 6 = 6 ∧
    parseIntOr (some s0) 6 = 6 ∧
    parseIntOr none 0 = 0 ∧ parseIntOr (some st) 0 = 0 ∧
    parseIntOr (some s0) 0 = 0 ∧
    (∀ q : RecipeQuery, q.limit = some s0 → (routeRecipes q).snd.fst = 6) ∧
    (∀ q : RecipeQuery, q.limit = none → (routeRecipes q).snd.fst = 6) ∧
    (∀ q : RecipeQuery, q.offset = none → (routeRecipes q).snd.snd = 0) ∧
    (∀ (s : MemStorage) (lc : String → String → Int) (c : String),
      (s.sortRecipes lc c 6 0).length ≤ 6 ∧
        (s.recipes ≠ [] → s.sortRecipes lc c 6 0 ≠ [])) := by
  have hOr : ∀ d : Int, parseIntOr (some st) d = d := by
    intro d; simp [parseIntOr, h]
  have hOr0 : ∀ d : Int, parseIntOr (some s0) d = d := by
    intro d; simp [parseIntOr, h0]
  refine ⟨rfl, hOr 6, hOr0 6, rfl, hOr 0, hOr0 0, ?_, ?_, ?_, ?_⟩
  · intro q hq
    simp [routeRecipes, hq, hOr0 6]
  · intro q hq
    simp [routeRecipes, hq, parseIntOr]
  · intro q hq
    simp [routeRecipes, hq, parseIntOr]
  · intro s lc c
    constructor
    · unfold MemStorage.sortRecipes
      cases criterionLe lc c <;>
        simp [jsSlice, List.length_take, Nat.min_le_left]
    · intro hne
      unfold MemStorage.sortRecipes
      have key : ∀ L : List Recipe, L ≠ [] → jsSlice L 0 6 ≠ [] := by
        intro L hL
        simp only [jsSlice, List.drop_zero, ne_eq, List.take_eq_nil_iff]
        simp [hL]
      apply key
      cases hc : criterionLe lc c with
      | none => exact hne
      | some le =>
        show s.recipes.mergeSort le ≠ []
        intro hnil
        have hlen := congrArg List.length hnil
        rw [List.length_mergeSort] at hlen
        exact hne (List.length_eq_zero.mp (by simpa using hlen))

/-- Witness for C10 at the non-numeric string "abc" and the zero string
"0". -/
theorem C10_parse_fallbacks_witness : parseIntOr (some "abc") 6 = 6 :=
  (C10_parse_fallbacks "abc" "0" (by decide) (by decide)).2.1

/-- C4: the `GET /api/recipes` handler defaults `limit` to 6 and
`offset` to 0 when the parameters are absent and dispatches to exactly
one storage operation with precedence search > tags > sort: a present,
non-blank search parameter selects search mode with that query;
otherwise a present, non-empty tags parameter selects tag-filter mode
with the comma-split (never empty) tag list; otherwise sort mode with
the sort parameter, defaulting to `newest`; and the chosen dispatch is
never two modes at once. -/
theorem C4_route_precedence (q : RecipeQuery) :
    (q.limit = none → (routeRecipes q).snd.fst = 6) ∧
    (q.offset = none → (routeRecipes q).snd.snd = 0) ∧
    (∀ qs, q.search = some qs → jsTrim qs ≠ "" →
      (routeRecipes q).fst = Dispatch.searchMode qs) ∧
    ((∀ qs, q.search = some qs → jsTrim qs = "") →
      ∀ t, q.tags = some t → t ≠ "" →
        (routeRecipes q).fst = Dispatch.tagsMode (jsSplitComma t) ∧
          jsSplitComma t ≠ []) ∧
    ((∀ qs, q.search = some qs → jsTrim qs = "") →
      (q.tags = none ∨ q.tags = some "") →
        ((q.sort = none ∨ q.sort = some "") →
            (routeRecipes q).fst = Dispatch.sortMode "newest") ∧
        (∀ c, q.sort = some c → c ≠ "" →
            (routeRecipes q).fst = Dispatch.sortMode c)) ∧
    (∀ a ts c,
      ¬((routeRecipes q).fst = Dispatch.searchMode a ∧
        (routeRecipes q).fst = Dispatch.tagsMode ts) ∧
      ¬((routeRecipes q).fst = Dispatch.searchMode a ∧
        (routeRecipes q).fst = Dispatch.sortMode c) ∧
      ¬((routeRecipes q).fst = Dispatch.tagsMode ts ∧
        (routeRecipes q).fst = Dispatch.sortMode c)) := by
  refine ⟨?_, ?_, ?_, ?_, ?_, ?_⟩
  · intro hq
    simp [routeRecipes, hq, parseIntOr]
  · intro hq
    simp [routeRecipes, hq, parseIntOr]
  · intro qs hqs hne
    have hqs' : qs ≠ "" := by
      intro hrfl
      exact hne (by rw [hrfl]; rfl)
    simp [routeRecipes, hqs, hqs', hne]
  · intro hs t ht htne
    refine ⟨?_, splitCommaAux_ne_nil _ _⟩
    have hsp : jsSplitComma t ≠ [] := splitCommaAux_ne_nil _ _
    have hact : (match q.search with
        | some s1 => !decide (s1 = "") && !decide (jsTrim s1 = "")
        | none => false) = false := by
      cases hq : q.search with
      | none => rfl
      | some s1 => simp [hs s1 hq]
    simp [routeRecipes, ht, htne, hact, hsp]
  · intro hs htg
    have hact : (match q.search with
        | some s1 => !decide (s1 = "") && !decide (jsTrim s1 = "")
        | none => false) = false := by
      cases hq : q.search with
      | none => rfl
      | some s1 => simp [hs s1 hq]
    constructor
    · intro hso
      rcases htg with ht | ht <;> rcases hso with hc | hc <;>
        simp [routeRecipes, ht, hc, hact]
    · intro c hc hcne
      rcases htg with ht | ht <;>
        simp [routeRecipes, ht, hc, hcne, hact]
  · intro a ts c
    refine ⟨fun hx => ?_, fun hx => ?_, fun hx => ?_⟩ <;>
      exact Dispatch.noConfusion (hx.1.symm.trans hx.2)

/-- C9: in the in-memory backend the id invariant (all stored ids are
below `nextRecipeId` and pairwise distinct) holds of the initial state
and is preserved by `createRecipe`, `updateRecipe` and `deleteRecipe`;
every `createRecipe` call assigns `nextRecipeId` as the new id, which
is strictly greater than every stored id, and neither update nor
delete ever decreases the counter (so the fresh id also exceeds the
ids of since-deleted recipes). -/
theorem C9_id_invariant (s : MemStorage) (ins : InsertRecipe) (now id : Nat)
    (u : PartialInsertRecipe) (h : s.IdInv) :
    MemStorage.init.IdInv ∧
    (s.createRecipe ins now).fst.id = s.nextRecipeId ∧
    (∀ r ∈ s.recipes, r.id < (s.createRecipe ins now).fst.id) ∧
    (s.createRecipe ins now).snd.IdInv ∧
    (s.updateRecipe id u).snd.IdInv ∧
    (s.deleteRecipe id).snd.IdInv ∧
    (s.updateRecipe id u).snd.nextRecipeId = s.nextRecipeId ∧
    (s.deleteRecipe id).snd.nextRecipeId = s.nextRecipeId := by
  have hlt : ∀ r ∈ s.recipes, r.id < s.nextRecipeId := h.1
  have hcreate_set :
      mapSet s.recipes (s.createRecipe ins now).fst
        = s.recipes ++ [(s.createRecipe ins now).fst] := by
    unfold mapSet
    rw [if_neg]
    intro hany
    obtain ⟨x, hx, hbeq⟩ := List.any_eq_true.mp hany
    have hxid : x.id = s.nextRecipeId := by simpa using hbeq
    have := hlt x hx
    omega
  refine ⟨?_, rfl, ?_, ?_, ?_, ?_, ?_, rfl⟩
  · exact ⟨fun r hr => absurd hr (List.not_mem_nil r), List.Pairwise.nil⟩
  · intro r hr
    exact hlt r hr
  · constructor
    · intro r hr
      show r.id < s.nextRecipeId + 1
      have hmem : r ∈ s.recipes ++ [(s.createRecipe ins now).fst] := by
        rw [← hcreate_set]; exact hr
      rcases List.mem_append.mp hmem with hold | hnew
      · have := hlt r hold; omega
      · have hr' : r = (s.createRecipe ins now).fst := by simpa using hnew
        rw [hr']
        show s.nextRecipeId < s.nextRecipeId + 1
        omega
    · show (mapSet s.recipes (s.createRecipe ins now).fst).Pairwise
        (fun a b => a.id ≠ b.id)
      rw [hcreate_set, List.pairwise_append]
      refine ⟨h.2, List.pairwise_singleton _ _, ?_⟩
      intro a ha b hb
      have hb' : b = (s.createRecipe ins now).fst := by simpa using hb
      have := hlt a ha
      rw [hb']
      show a.id ≠ s.nextRecipeId
      omega
  · cases hm : mapGet s.recipes id with
    | none => simp only [MemStorage.updateRecipe, hm]; exact h
    | some r0 =>
      have hr0mem : r0 ∈ s.recipes := List.mem_of_find?_eq_some hm
      have hr0id : r0.id = id := by
        have := List.find?_some hm
        simpa using this
      simp only [MemStorage.updateRecipe, hm]
      have hid_pt : ∀ x : Recipe,
          ((if (x.id == (mergeRecipe r0 u).id) = true then mergeRecipe r0 u else x)).id
            = x.id := by
        intro x
        split
        · rename_i hx
          exact ((beq_iff_eq).mp hx).symm
        · rfl
      have hany : s.recipes.any (fun x => x.id == (mergeRecipe r0 u).id) = true := by
        refine List.any_eq_true.mpr ⟨r0, hr0mem, ?_⟩
        simp [mergeRecipe]
      constructor
      · intro r hr
        simp only [mapSet, hany, if_true] at hr
        obtain ⟨x, hx, rfl⟩ := List.mem_map.mp hr
        rw [hid_pt x]
        exact hlt x hx
      · show (mapSet s.recipes (mergeRecipe r0 u)).Pairwise (fun a b => a.id ≠ b.id)
        simp only [mapSet, hany, if_true]
        rw [List.pairwise_map]
        refine h.2.imp ?_
        intro a b hab
        rw [hid_pt a, hid_pt b]
        exact hab
  · constructor
    · intro r hr
      exact hlt r (List.mem_of_mem_filter hr)
    · exact List.Pairwise.sublist (List.filter_sublist _) h.2
  · cases hm : mapGet s.recipes id with
    | none => simp only [MemStorage.updateRecipe, hm]
    | some r0 => simp only [MemStorage.updateRecipe, hm]

/-- Witness for C9 at the concrete one-recipe store, whose invariant is
checked by evaluation. -/
theorem C9_id_invariant_witness : MemStorage.init.IdInv :=
  (C9_id_invariant sampleStore sampleInsert 200 1 PartialInsertRecipe.empty
    (by decide)).1

theorem jsSlice_sublist (L : List Recipe) (o l : Nat) :
    (jsSlice L o l).Sublist L :=
  (List.take_sublist _ _).trans (List.drop_sublist _ _)

theorem criterionLe_trans_total (lc : String → String → Int)
    (hflip : ∀ x y, lc x y < 0 ↔ 0 < lc y x)
    (htrans : ∀ x y z, lc x y ≤ 0 → lc y z ≤ 0 → lc x z ≤ 0)
    (c : String) (le : Recipe → Recipe → Bool)
    (h : criterionLe lc c = some le) :
    (∀ a b d, le a b → le b d → le a d) ∧ (∀ a b, le a b || le b a) := by
  have hcases := h
  unfold criterionLe at hcases
  split at hcases <;>
    first
      | exact Option.noConfusion hcases
      | (injection hcases with hle
         subst hle
         constructor
         · intro a b d hab hbd
           first
             | (simp only [leNewest, decide_eq_true_eq] at *; omega)
             | (simp only [leOldest, decide_eq_true_eq] at *; omega)
             | (simp only [lePopular, decide_eq_true_eq] at *; omega)
             | (simp only [leAz, decide_eq_true_eq] at *
                exact htrans _ _ _ hab hbd)
             | (simp only [leZa, decide_eq_true_eq] at *
                exact htrans _ _ _ hbd hab)
         · intro a b
           first
             | (simp only [leNewest, Bool.or_eq_true, decide_eq_true_eq]; omega)
             | (simp only [leOldest, Bool.or_eq_true, decide_eq_true_eq]; omega)
             | (simp only [lePopular, Bool.or_eq_true, decide_eq_true_eq]; omega)
             | (simp only [leAz, Bool.or_eq_true, decide_eq_true_eq]
                rcases Int.le_total (lc a.name b.name) 0 with hle | hge
                · exact Or.inl hle
                · rcases Int.lt_or_le 0 (lc a.name b.name) with hpos | hle
                  · have := (hflip b.name a.name).mpr hpos
                    exact Or.inr (Int.le_of_lt this)
                  · exact Or.inl (Int.le_antisymm hle hge ▸ Int.le_refl 0))
             | (simp only [leZa, Bool.or_eq_true, decide_eq_true_eq]
                rcases Int.le_total (lc b.name a.name) 0 with hle | hge
                · exact Or.inl hle
                · rcases Int.lt_or_le 0 (lc b.name a.name) with hpos | hle
                  · have := (hflip a.name b.name).mpr hpos
                    exact Or.inr (Int.le_of_lt this)
                  · exact Or.inl (Int.le_antisymm hle hge ▸ Int.le_refl 0)))

theorem mergeSort_az_reverse_za (lc : String → String → Int)
    (hflip : ∀ x y, lc x y < 0 ↔ 0 < lc y x)
    (htrans : ∀ x y z, lc x y ≤ 0 → lc y z ≤ 0 → lc x z ≤ 0)
    (l : List Recipe)
    (hnames : ∀ a ∈ l, ∀ b ∈ l, lc a.name b.name = 0 → a = b) :
    l.mergeSort (leAz lc) = (l.mergeSort (leZa lc)).reverse := by
  have haz := criterionLe_trans_total lc hflip htrans "az" (leAz lc) rfl
  have hza := criterionLe_trans_total lc hflip htrans "za" (leZa lc) rfl
  refine @List.Perm.eq_of_sorted Recipe (fun a b => leAz lc a b = true) _ _
    ?_ ?_ ?_ ?_
  · intro a b ha hb hab hba
    have ha' : a ∈ l := List.mem_mergeSort.mp ha
    have hb' : b ∈ l := List.mem_mergeSort.mp (List.mem_reverse.mp hb)
    have h1 : lc a.name b.name ≤ 0 := by simpa [leAz] using hab
    have h2 : lc b.name a.name ≤ 0 := by simpa [leAz] using hba
    have h0 : lc a.name b.name = 0 := by
      rcases Int.lt_or_le (lc a.name b.name) 0 with hlt | hge
      · have := (hflip a.name b.name).mp hlt
        omega
      · omega
    exact hnames a ha' b hb' h0
  · exact List.sorted_mergeSort haz.1 haz.2 l
  · rw [List.pairwise_reverse]
    exact List.sorted_mergeSort hza.1 hza.2 l
  · exact (List.mergeSort_perm l _).trans
      ((List.mergeSort_perm l _).symm.trans (List.reverse_perm _).symm)

/-- C3: `sortRecipes` recognises exactly the five criteria with the
comparators transcribed from the source (`createdAt` descending for
newest, ascending for oldest, locale comparison of names ascending for
az and descending for za, `rating` descending for popular); every page
is a slice of one globally sorted list; for each recognised criterion
the unsliced result is a permutation of the store, every returned page
is sorted by the criterion's comparator, and insertion order is
preserved for comparator-tied pairs (stability); and when the
comparator behaves consistently (`hflip`, `htrans`) and the stored
names are pairwise distinct under it, the full az result is exactly
the reverse of the full za result. -/
theorem C3_sort_criteria (s : MemStorage) (lc : String → String → Int)
    (limit offset : Nat)
    (hflip : ∀ x y, lc x y < 0 ↔ 0 < lc y x)
    (htrans : ∀ x y z, lc x y ≤ 0 → lc y z ≤ 0 → lc x z ≤ 0)
    (hnames : ∀ a ∈ s.recipes, ∀ b ∈ s.recipes, lc a.name b.name = 0 → a = b) :
    criterionLe lc "newest" = some leNewest ∧
    criterionLe lc "oldest" = some leOldest ∧
    criterionLe lc "az" = some (leAz lc) ∧
    criterionLe lc "za" = some (leZa lc) ∧
    criterionLe lc "popular" = some lePopular ∧
    (∀ c, s.sortRecipes lc c limit offset
        = jsSlice (s.sortRecipes lc c s.recipes.length 0) offset limit) ∧
    (∀ c le, criterionLe lc c = some le →
      (s.sortRecipes lc c s.recipes.length 0).Perm s.recipes ∧
      (s.sortRecipes lc c limit offset).Pairwise (fun a b => le a b = true) ∧
      (∀ a b, [a, b].Sublist s.recipes → le a b = true →
        [a, b].Sublist (s.sortRecipes lc c s.recipes.length 0))) ∧
    s.sortRecipes lc "az" s.recipes.length 0
      = (s.sortRecipes lc "za" s.recipes.length 0).reverse := by
  have hfull : ∀ c, s.sortRecipes lc c s.recipes.length 0
      = (match criterionLe lc c with
          | some le => s.recipes.mergeSort le
          | none => s.recipes) := by
    intro c
    unfold MemStorage.sortRecipes
    cases criterionLe lc c with
    | none => exact jsSlice_zero_of_le _ _ (Nat.le_refl _)
    | some le => exact jsSlice_zero_of_le _ _ (Nat.le_of_eq (List.length_mergeSort _))
  have hpage : ∀ c, s.sortRecipes lc c limit offset
      = jsSlice
          (match criterionLe lc c with
            | some le => s.recipes.mergeSort le
            | none => s.recipes) offset limit := by
    intro c
    unfold MemStorage.sortRecipes
    rfl
  refine ⟨rfl, rfl, rfl, rfl, rfl, ?_, ?_, ?_⟩
  · intro c
    rw [hfull c, hpage c]
  · intro c le hcle
    have htt := criterionLe_trans_total lc hflip htrans c le hcle
    have hsorted := List.sorted_mergeSort htt.1 htt.2 s.recipes
    refine ⟨?_, ?_, ?_⟩
    · rw [hfull c, hcle]
      exact List.mergeSort_perm s.recipes le
    · rw [hpage c, hcle]
      exact List.Pairwise.sublist (jsSlice_sublist _ _ _) hsorted
    · intro a b hsub hle
      rw [hfull c, hcle]
      exact List.pair_sublist_mergeSort htt.1 htt.2 hle hsub
  · rw [hfull "az", hfull "za"]
    exact mergeSort_az_reverse_za lc hflip htrans s.recipes hnames

/-- Witness for C3 with the all-zero comparator and the concrete
one-recipe store. -/
theorem C3_sort_criteria_witness :
    MemStorage.sortRecipes sampleStore constZeroCmp "newest" 6 0
      = jsSlice
          (MemStorage.sortRecipes sampleStore constZeroCmp "newest"
            sampleStore.recipes.length 0) 0 6 :=
  (C3_sort_criteria sampleStore constZeroCmp 6 0
    (by intro x y; simp [constZeroCmp])
    (fun x y z h1 h2 => h1)
    (by decide)).2.2.2.2.2.1 "newest"

end MyCookBook
